import Mathlib

/-!
Shallow embedding of `src/summarize_git_stats.py` (gitContributions).

Python dictionaries are modelled as association lists `List (α × Nat)` in
insertion order: assignment `d[k] = v` updates the (unique) entry for `k`
in place or appends a fresh entry, and `d.get(k, 0)` / `k in d` are
modelled by `lookupKey`.  Shelling out to git is modelled by a `GitWorld`
record supplying each subprocess call's outcome, and every run returns the
list of git commands it issued (its trace) next to its result.
-/

deriving instance DecidableEq for Except

namespace GitStats

/-! ### Python string primitives

The script uses `str.strip`, `str.split`, `str.startswith` and
`str.endswith`.  They are implemented here by structural recursion over the
character list of the string (kernel-reducible), mirroring CPython's
semantics: `split` on a non-empty separator scans left to right and keeps
empty segments, `strip` removes leading and trailing whitespace. -/

/-- CPython's notion of whitespace for `str.strip()`. -/
def isPySpace (c : Char) : Bool :=
  (c == ' ') || (c == '\t') || (c == '\n') || (c == '\r') || (c == '\x0b') || (c == '\x0c')

/-- If `pre` is a prefix of `l`, the remainder of `l` after it. -/
def dropPre : List Char → List Char → Option (List Char)
  | [], l => some l
  | _, [] => none
  | c :: cs, x :: xs => if c = x then dropPre cs xs else none

/-- `s.strip()`. -/
def pyStrip (s : String) : String :=
  ⟨((s.data.dropWhile isPySpace).reverse.dropWhile isPySpace).reverse⟩

/-- `s.startswith(p)`. -/
def pyStartsWith (s p : String) : Bool :=
  (dropPre p.data s.data).isSome

/-- `s.endswith(p)`. -/
def pyEndsWith (s p : String) : Bool :=
  (dropPre p.data.reverse s.data.reverse).isSome

/-- Worker for `s.split(sep)`: `acc` is the current segment reversed, the
fuel (initially the length of the string) makes the recursion structural;
a step either consumes one character or a non-empty separator occurrence. -/
def splitGo (sep : List Char) : Nat → List Char → List Char → List (List Char)
  | _, acc, [] => [acc.reverse]
  | 0, acc, l => [acc.reverse ++ l]
  | fuel + 1, acc, x :: xs =>
    match dropPre sep (x :: xs) with
    | some rest => acc.reverse :: splitGo sep fuel [] rest
    | none => splitGo sep fuel (x :: acc) xs

/-- `s.split(sep)` for a non-empty separator. -/
def pySplit (s sep : String) : List String :=
  (splitGo sep.data s.data.length [] s.data).map (fun cs => ⟨cs⟩)

/-- The code points of a string; Python compares strings lexicographically
on these. -/
def codePoints (s : String) : List Nat :=
  s.data.map Char.toNat

/-- Python's `<=` on strings: lexicographic on code points. -/
def pyStrLe (a b : String) : Prop :=
  codePoints a ≤ codePoints b

/-- Python's `<` on strings: strict lexicographic order on code points. -/
def pyStrLt (a b : String) : Prop :=
  codePoints a < codePoints b

theorem codePoints_inj {a b : String} (h : codePoints a = codePoints b) : a = b := by
  have hinj : Function.Injective Char.toNat := by
    intro x y hxy
    have := congrArg Char.ofNat hxy
    simpa [Char.ofNat_toNat] using this
  have h4 : a.data = b.data := List.map_injective_iff.mpr hinj h
  cases a
  cases b
  exact congrArg String.mk h4

instance : DecidableRel pyStrLe :=
  fun a b => inferInstanceAs (Decidable (codePoints a ≤ codePoints b))

instance : IsTotal String pyStrLe :=
  ⟨fun a b => le_total (codePoints a) (codePoints b)⟩

instance : IsTrans String pyStrLe :=
  ⟨fun _ _ _ h1 h2 => le_trans h1 h2⟩

instance : IsAntisymm String pyStrLe :=
  ⟨fun _ _ h1 h2 => codePoints_inj (le_antisymm h1 h2)⟩

/-- `d[k]` / `d.get(k)` on a Python dict modelled as an association list:
the value at the first entry whose key is `k`. -/
def lookupKey [DecidableEq α] : List (α × β) → α → Option β
  | [], _ => none
  | p :: d, k => if p.1 = k then some p.2 else lookupKey d k

/-- `d[k] = v` on a Python dict: replace the value of the first entry for
`k`, or append `(k, v)` when `k` is not a key yet. -/
def dictSet [DecidableEq α] : List (α × β) → α → β → List (α × β)
  | [], k, v => [(k, v)]
  | p :: d, k, v => if p.1 = k then (p.1, v) :: d else p :: dictSet d k v

/-- `d.get(k, 0)`. -/
def lookupNat [DecidableEq α] (d : List (α × Nat)) (k : α) : Nat :=
  (lookupKey d k).getD 0

/-- `d[k] = d.get(k, 0) + n`, the accumulation pattern used throughout the
script (and `defaultdict(int)`'s `d[k] += n` with `n = 1`). -/
def bump [DecidableEq α] (d : List (α × Nat)) (k : α) (n : Nat) : List (α × Nat) :=
  dictSet d k (lookupNat d k + n)

/-! ### The shortstat number extraction

`re.search(r'(\d+) insertions', line)` (and the `deletions` twin) finds the
leftmost occurrence of one-or-more digits immediately followed by the
keyword `" insertions"`, the group being the maximal digit run.  Because the
keyword ends in a non-digit character, a digit run can never span two
occurrences of the keyword, so splitting the line on the keyword and taking
the digit suffix of the first part that has one (among parts that are
followed by a keyword occurrence) computes exactly the regex group. -/

/-- The maximal run of decimal digits at the end of `s`. -/
def digitSuffix (s : String) : List Char :=
  (s.data.reverse.takeWhile Char.isDigit).reverse

/-- `int(...)` on a string of decimal digits. -/
def digitsToNat (cs : List Char) : Nat :=
  cs.foldl (fun a c => a * 10 + (c.toNat - 48)) 0

/-- Scan the parts produced by splitting a line on the keyword; every part
except the last is followed by a keyword occurrence, and the first such part
ending in a digit yields the regex group. -/
def searchParts : List String → Option Nat
  | [] => none
  | [_] => none
  | p :: q :: rest =>
    let ds := digitSuffix p
    if ds.isEmpty then searchParts (q :: rest) else some (digitsToNat ds)

/-- `re.search(r'(\d+) <kw>', line)` followed by `int(m.group(1))`, for a
keyword starting with a space and ending in a non-digit. -/
def findNumBefore (line kw : String) : Option Nat :=
  searchParts (pySplit line kw)

/-! ### The git-log parser (`get_git_user_commit_summary`, lines 93-111) -/

/-- The three per-author dictionaries built by the parsing loop.
`current_author` starts out as Python `None`, so the statistics
dictionaries are keyed by `Option String`. -/
structure Summary where
  git_commits : List (String × Nat)
  lines_added : List (Option String × Nat)
  lines_deleted : List (Option String × Nat)
  deriving DecidableEq

/-- The parsing loop of `get_git_user_commit_summary`: an unindented line
names the author of the commits that follow (and counts a commit when
non-empty after stripping); an indented line is a `--shortstat` summary
whose insertion/deletion numbers accrue to the current author. -/
def parseLines : List String → Summary → Option String → Summary
  | [], s, _ => s
  | line :: rest, s, ca =>
    if ¬ pyStartsWith line (" ") then
      let a := pyStrip line
      let s1 := if a ≠ "" then { s with git_commits := bump s.git_commits a 1 } else s
      parseLines rest s1 (some a)
    else
      let s1 := match findNumBefore line (" insertions") with
        | some n => { s with lines_added := bump s.lines_added ca n }
        | none => s
      let s2 := match findNumBefore line (" deletions") with
        | some n => { s1 with lines_deleted := bump s1.lines_deleted ca n }
        | none => s1
      parseLines rest s2 ca

/-- Parse a whole `git log --shortstat --pretty=format:%an` output, split
into lines, starting with empty dictionaries and no current author. -/
def parseLog (lines : List String) : Summary :=
  parseLines lines ⟨[], [], []⟩ none

/-! ### Declarative counterparts used to state the parser's correctness -/

/-- Number of unindented lines whose stripped text is exactly `a`
(one commit is counted per such line when `a` is non-empty). -/
def specCommits (lines : List String) (a : String) : Nat :=
  (lines.filter (fun l => (!pyStartsWith l (" ")) && (pyStrip l == a))).length

/-- Each indented (statistics) line paired with the author it is attributed
to: the stripped text of the closest preceding unindented line, or the
initial current author (`none` at the top of the output). -/
def statLinesBy : List String → Option String → List (Option String × String)
  | [], _ => []
  | l :: ls, ca =>
    if ¬ pyStartsWith l (" ") then statLinesBy ls (some (pyStrip l))
    else (ca, l) :: statLinesBy ls ca

/-- Total insertions attributed to key `k`: sum of the extracted insertion
counts over the statistics lines attributed to `k`. -/
def specAdded (lines : List String) (ca k : Option String) : Nat :=
  (((statLinesBy lines ca).filter (fun p => p.1 == k)).map
    (fun p => (findNumBefore p.2 (" insertions")).getD 0)).sum

/-- Total deletions attributed to key `k`. -/
def specDeleted (lines : List String) (ca k : Option String) : Nat :=
  (((statLinesBy lines ca).filter (fun p => p.1 == k)).map
    (fun p => (findNumBefore p.2 (" deletions")).getD 0)).sum

/-! ### The git world: outcomes of the subprocess calls

`get_code_lines_contributed` (lines 120-250) shells out to git.  A
`GitWorld` fixes the outcome of each call; the run is a pure function of
the world that also returns the list of commands it issued, in order. -/

/-- One git invocation made by the script. -/
inductive GitCmd where
  | log
  | status
  | revList (date : String)
  | checkout (ref : String)
  | blame (file : String)
  | checkoutPrev
  deriving DecidableEq

/-- Outcomes of the external calls.  `Except.error` models a non-zero exit
status (a `CalledProcessError` under `check=True`); for `blame`
(run without `check=True`) `none` models a non-zero `returncode`.
`filesMatlab`/`filesJulia` are the files produced by walking the two
era-specific directory sets on the checked-out tree. -/
structure GitWorld where
  statusResult : Except String String
  revListResult : Except String String
  /-- Whether `git checkout <hash>` succeeds.  Its failure is caught by the
  surrounding `except CalledProcessError` and only printed, so it has no
  further observable effect on the run. -/
  checkoutOk : Bool
  filesMatlab : List String
  filesJulia : List String
  blame : String → Option String
  checkoutPrevOk : Bool

/-- Errors that escape `get_code_lines_contributed` /
`get_git_user_commit_summary`. -/
inductive RunError where
  /-- The `RuntimeError` raised on a dirty tree before a historical
  checkout (it is not a `CalledProcessError`, so the local handler lets it
  propagate). -/
  | uncommittedChanges
  /-- The `Exception` raised when `git log` exits non-zero. -/
  | logError
  /-- An uncaught `CalledProcessError` (only the final `git checkout -`
  runs with `check=True` outside the `try` block). -/
  | calledProcess (cmd : GitCmd)
  deriving DecidableEq

/-- Result of `get_code_lines_contributed`: the
`{"version": ..., "code": ...}` dictionary. -/
structure CodeLines where
  version : String
  code : List (String × Nat)
  deriving DecidableEq

/-- `date.split('-')[0]`, the year field of a `YYYY-MM-DD` date
(`datetime.now().strftime('%Y')` is the same field of today's date). -/
def yearOf (date : String) : String :=
  (pySplit date ("-")).headD ""

/-- The numeric `(year, month, day)` fields of a `YYYY-MM-DD` date, the
value `datetime.strptime(d, "%Y-%m-%d")` compares by. -/
def dateFields (d : String) : List Nat :=
  (pySplit d ("-")).map (fun p => digitsToNat p.data)

/-- `datetime.strptime(a, ...) < datetime.strptime(b, ...)`: numeric
lexicographic comparison of the date fields. -/
def dateBefore (a b : String) : Bool :=
  decide (dateFields a < dateFields b)

/-- Lines 160-198, the `try` block guarded by `check_out`: `git status
--porcelain` (dirty tree ⇒ `RuntimeError`), `git rev-list` to resolve the
revision at the date, and `git checkout` of it when one was found.  A
`CalledProcessError` from any of the three calls is caught and only
printed.  Returns the propagating error, if any, and the trace. -/
def checkoutPhase (w : GitWorld) (date_to_check : String) :
    Option RunError × List GitCmd :=
  match w.statusResult with
  | .error _ => (none, [.status])
  | .ok out =>
    if pyStrip out ≠ "" then (some .uncommittedChanges, [.status])
    else
      match w.revListResult with
      | .error _ => (none, [.status, .revList date_to_check])
      | .ok rl =>
        let commit_hash := pyStrip rl
        if commit_hash ≠ "" then
          (none, [.status, .revList date_to_check, .checkout commit_hash])
        else (none, [.status, .revList date_to_check])

/-- Lines 236-241: tally one `author ` line of `git blame --line-porcelain`
output into the `defaultdict(int)` of per-author line counts. -/
def blameAuthors (lines : List String) (d : List (String × Nat)) : List (String × Nat) :=
  lines.foldl
    (fun d line =>
      if pyStartsWith line ("author ") then
        bump d (pyStrip ((pySplit line ("author ")).getD 1 "")) 1
      else d)
    d

/-- Lines 220-244, the blame loop: for each file found by the walk, skip it
unless its name ends in `.jl` or `.m`, run `git blame` on it, skip it when
blame exits non-zero (`continue`), otherwise tally its author lines. -/
def blamePhase (w : GitWorld) : List String → List (String × Nat) →
    List (String × Nat) × List GitCmd
  | [], acc => (acc, [])
  | f :: fs, acc =>
    if pyEndsWith f (".jl") || pyEndsWith f (".m") then
      let acc1 := match w.blame f with
        | none => acc
        | some out => blameAuthors (pySplit (pyStrip out) ("\n")) acc
      let r := blamePhase w fs acc1
      (r.1, .blame f :: r.2)
    else blamePhase w fs acc

/-- The directory-walk result for the era of `date_to_check`, restricted to
the extensions the blame loop accepts. -/
def eligFiles (w : GitWorld) (date_to_check : String) : List String :=
  (if dateBefore date_to_check ("2021-11-25") then w.filesMatlab else w.filesJulia).filter
    (fun f => pyEndsWith f (".jl") || pyEndsWith f (".m"))

/-- `get_code_lines_contributed` (lines 120-250).  `today` stands for
`datetime.now()` formatted as `YYYY-MM-DD`; a `none` date defaults to it.
`check_out` compares only the year fields (line 157).  The date comparison
against `"2021-11-25"` uses string order, which agrees with
`datetime.strptime` order on well-formed `YYYY-MM-DD` dates.  The final
`git checkout -` runs with `check=True` outside any handler, so its failure
aborts the run (after the command was issued). -/
def get_code_lines_contributed (w : GitWorld) (today : String)
    (date_to_check : Option String) : Except RunError CodeLines × List GitCmd :=
  let year_now := yearOf today
  let d := date_to_check.getD today
  let check_out := yearOf d ≠ year_now
  let phase := if check_out then checkoutPhase w d else (none, [])
  match phase.1 with
  | some e => (.error e, phase.2)
  | none =>
    let code_version := if dateBefore d ("2021-11-25") then "MATLAB" else "Julia"
    let files := if dateBefore d ("2021-11-25") then w.filesMatlab else w.filesJulia
    let blamed := blamePhase w files []
    let result : CodeLines := ⟨code_version ++ "@" ++ d, blamed.1⟩
    if check_out then
      if w.checkoutPrevOk then
        (.ok result, phase.2 ++ blamed.2 ++ [.checkoutPrev])
      else
        (.error (.calledProcess .checkoutPrev), phase.2 ++ blamed.2 ++ [.checkoutPrev])
    else (.ok result, phase.2 ++ blamed.2)

/-- `subprocess.run(...)` outcome for `git log` (captured, not checked). -/
structure ProcResult where
  returncode : Int
  stdout : String
  deriving DecidableEq

/-- The full summary returned by `get_git_user_commit_summary`. -/
structure FullSummary where
  git_commits : List (String × Nat)
  lines_added : List (Option String × Nat)
  lines_deleted : List (Option String × Nat)
  core_code_lines_current : CodeLines
  deriving DecidableEq

/-- `get_git_user_commit_summary` from the `git log` call on (lines
83-117): a non-zero exit raises an `Exception` before anything else runs;
otherwise the output is stripped, split into lines and parsed, and
`get_code_lines_contributed` is invoked on the end date. -/
def get_git_user_commit_summary (log_result : ProcResult) (w : GitWorld)
    (today : String) (end_date : String) :
    Except RunError FullSummary × List GitCmd :=
  if log_result.returncode ≠ 0 then (.error .logError, [.log])
  else
    let s := parseLog (pySplit (pyStrip log_result.stdout) ("\n"))
    let cl := get_code_lines_contributed w today (some end_date)
    match cl.1 with
    | .error e => (.error e, .log :: cl.2)
    | .ok c => (.ok ⟨s.git_commits, s.lines_added, s.lines_deleted, c⟩, .log :: cl.2)

/-! ### Colors (`generate_unique_colors`, lines 15-45, and line 343)

A color is either an RGBA tuple or a named hex string (the `"#cccccc"`
fallback of line 343); in Python these are a tuple and a `str`, never equal
to each other.  The MD5 digest and the seeded PRNG draws are external
library calls: they are parameters `md5int : String → Nat` (the
`int(hexdigest, 16)` of the name's MD5) and `randTriple : Nat → Nat × Nat ×
Nat` (the three `randint(0, 255)` draws of a generator freshly seeded with
that value — `random.seed` fully resets the generator state, so the draws
are a function of the seed).  The float expressions `1 - x/255.0` are
modelled exactly as rationals; IEEE evaluation of `1 - x/255.0` is itself a
deterministic function of `x`. -/

/-- An RGBA tuple or a matplotlib named color string. -/
inductive Color where
  | rgba (r g b a : Rat)
  | hex (s : String)
  deriving DecidableEq

/-- The tuple built for one user from the three draws seeded with the hash
of the user's name (lines 33-44). -/
def genColorOfSeed (randTriple : Nat → Nat × Nat × Nat) (alpha : Rat) (seed : Nat) : Color :=
  let t := randTriple seed
  .rgba (1 - (t.1 : Rat) / 255) (1 - (t.2.1 : Rat) / 255) (1 - (t.2.2 : Rat) / 255) alpha

/-- One iteration of the color loop: write the user's color, computed from
the hash of the user's name alone, into the mapping. -/
def colorStep (md5int : String → Nat) (randTriple : Nat → Nat × Nat × Nat) (alpha : Rat)
    (m : List (String × Color)) (user : String) : List (String × Color) :=
  dictSet m user (genColorOfSeed randTriple alpha (md5int user))

/-- `generate_unique_colors(users, alpha)`: one entry per user, built from
the hash of the user's name alone. -/
def generate_unique_colors (md5int : String → Nat) (randTriple : Nat → Nat × Nat × Nat)
    (users : List String) (alpha : Rat) : List (String × Color) :=
  users.foldl (colorStep md5int randTriple alpha) []

/-- Line 343: the color a chart slice for `user` gets, where `all_users`
are the authors of the run's `git_commits` dictionary (line 319-320) —
`user_colors[user] if user in user_colors.keys() else "#cccccc"`. -/
def chartColor (md5int : String → Nat) (randTriple : Nat → Nat × Nat × Nat)
    (all_users : List String) (alpha : Rat) (user : String) : Color :=
  match lookupKey (generate_unique_colors md5int randTriple all_users alpha) user with
  | some c => c
  | none => .hex "#cccccc"

/-! ### Alias folding (`__main__`, lines 310-338) -/

/-- The fixed alias table of lines 310-316. -/
def user_aliases : List (String × List String) :=
  [("dr-ko", ["skoirala"]),
   ("Nuno", ["Nuno Carvalhais", "NC", "ncarval"]),
   ("Lazaro Alonso", ["Lazaro Alonso Silva", "lazarusA", "Lazaro", "lalonso"]),
   ("Fabian Gans", ["meggart"]),
   ("Tina Trautmann", ["Tina"])]

/-- Line 317: every alias name of the table. -/
def alias_values : List String :=
  (user_aliases.map Prod.snd).flatten

/-- The total contribution written for a non-alias `user` (lines 333-337):
the user's own count, plus — when the user is a canonical name of the
table — the counts of its listed aliases that are keys of the input. -/
def totOf (md : List (String × Nat)) (user : String) : Nat :=
  let base := (lookupKey md user).getD 0
  match lookupKey user_aliases user with
  | some als => base + (als.filterMap (fun a => lookupKey md a)).sum
  | none => base

/-- One iteration of the folding loop (lines 331-338): skip `user` when it
is an alias name, otherwise write the user's total into the accumulating
`unique_user_data` dictionary. -/
def foldStep (md : List (String × Nat)) (acc : List (String × Nat)) (user : String) :
    List (String × Nat) :=
  if user ∈ alias_values then acc else dictSet acc user (totOf md user)

/-- The folding loop of lines 331-338: iterate over the keys of
`metric_data`, skipping alias names and writing each remaining user's
total. -/
def fold_aliases (md : List (String × Nat)) : List (String × Nat) :=
  (md.map Prod.fst).foldl (foldStep md) []

/-- Line 341, `sorted(unique_user_data.keys())`: Python's `sorted` on
strings orders by code points; on distinct keys it returns the unique
`≤`-sorted permutation, here computed by insertion sort. -/
def sorted_users (users : List String) : List String :=
  users.insertionSort pyStrLe

/-! ### Laws of the dictionary model -/

theorem lookupKey_dictSet [DecidableEq α] (d : List (α × β)) (k : α) (v : β) (q : α) :
    lookupKey (dictSet d k v) q = if q = k then some v else lookupKey d q := by
  induction d with
  | nil =>
    by_cases h : q = k
    · subst h
      simp [dictSet, lookupKey]
    · have h2 : ¬ k = q := fun hc => h hc.symm
      simp [dictSet, lookupKey, h, h2]
  | cons p d ih =>
    by_cases hp : p.1 = k
    · by_cases hq : q = k
      · subst hq
        simp [dictSet, lookupKey, hp]
      · have hpq : ¬ p.1 = q := fun hc => hq (hc.symm.trans hp)
        have hkq : ¬ k = q := fun hc => hq hc.symm
        simp [dictSet, lookupKey, hp, hpq, hq, hkq]
    · by_cases hq : p.1 = q
      · have hqk : ¬ q = k := fun hc => hp (hq.trans hc)
        simp [dictSet, lookupKey, hp, hq, hqk]
      · simp [dictSet, lookupKey, hp, hq, ih]

theorem lookupNat_bump [DecidableEq α] (d : List (α × Nat)) (k : α) (n : Nat) (q : α) :
    lookupNat (bump d k n) q = lookupNat d q + if q = k then n else 0 := by
  unfold bump lookupNat
  rw [lookupKey_dictSet]
  by_cases h : q = k
  · subst h
    simp [lookupNat]
  · simp [h]

theorem lookupKey_bump_isSome [DecidableEq α] (d : List (α × Nat)) (k : α) (n : Nat) (q : α)
    (h : (lookupKey d q).isSome) : (lookupKey (bump d k n) q).isSome := by
  unfold bump
  rw [lookupKey_dictSet]
  by_cases hq : q = k
  · simp [hq]
  · simpa [hq] using h

theorem lookupKey_bump_isSome_self [DecidableEq α] (d : List (α × Nat)) (k : α) (n : Nat) :
    (lookupKey (bump d k n) k).isSome := by
  unfold bump
  rw [lookupKey_dictSet]
  simp

theorem lookupKey_eq_none_iff [DecidableEq α] (d : List (α × β)) (k : α) :
    lookupKey d k = none ↔ k ∉ d.map Prod.fst := by
  induction d with
  | nil => simp [lookupKey]
  | cons p d ih =>
    by_cases h : p.1 = k
    · simp [lookupKey, h]
    · have h2 : ¬ k = p.1 := fun hc => h hc.symm
      rw [lookupKey, if_neg h, ih]
      simp [List.mem_cons, h2]

/-! ### Parser invariants -/

theorem parseLines_commits (lines : List String) (s : Summary) (ca : Option String)
    (a : String) (ha : a ≠ "") :
    lookupNat (parseLines lines s ca).git_commits a =
      lookupNat s.git_commits a + specCommits lines a := by
  induction lines generalizing s ca with
  | nil => simp [parseLines, specCommits]
  | cons line rest ih =>
    cases hline : pyStartsWith line (" ") with
    | false =>
      by_cases hs : pyStrip line = a
      · have hne : pyStrip line ≠ "" := by rw [hs]; exact ha
        simp [parseLines, hline, hne, hs, ha, ih, specCommits, List.filter_cons,
          lookupNat_bump]
        omega
      · have hsa : ¬ a = pyStrip line := fun hc => hs hc.symm
        by_cases hne : pyStrip line = ""
        · have hea : ¬ ("" : String) = a := hne ▸ hs
          simp [parseLines, hline, hne, ih, specCommits, List.filter_cons, hea]
        · simp [parseLines, hline, hne, ih, specCommits, List.filter_cons, hs, hsa,
            lookupNat_bump]
    | true =>
      rcases hins : findNumBefore line (" insertions") with _ | n <;>
        rcases hdel : findNumBefore line (" deletions") with _ | m <;>
        simp [parseLines, hline, hins, hdel, ih, specCommits, List.filter_cons]

theorem parseLines_added (lines : List String) (s : Summary) (ca : Option String)
    (k : Option String) :
    lookupNat (parseLines lines s ca).lines_added k =
      lookupNat s.lines_added k + specAdded lines ca k := by
  induction lines generalizing s ca with
  | nil => simp [parseLines, specAdded, statLinesBy]
  | cons line rest ih =>
    cases hline : pyStartsWith line (" ") with
    | false =>
      by_cases hne : pyStrip line = "" <;>
        simp [parseLines, hline, hne, ih, specAdded, statLinesBy]
    | true =>
      by_cases hk : k = ca
      · subst hk
        rcases hins : findNumBefore line (" insertions") with _ | n <;>
          rcases hdel : findNumBefore line (" deletions") with _ | m <;>
          simp [parseLines, hline, hins, hdel, ih, specAdded, statLinesBy,
            List.filter_cons, lookupNat_bump] <;> omega
      · have hk2 : ¬ ca = k := fun hc => hk hc.symm
        rcases hins : findNumBefore line (" insertions") with _ | n <;>
          rcases hdel : findNumBefore line (" deletions") with _ | m <;>
          simp [parseLines, hline, hins, hdel, ih, specAdded, statLinesBy,
            List.filter_cons, lookupNat_bump, hk, hk2]

theorem parseLines_deleted (lines : List String) (s : Summary) (ca : Option String)
    (k : Option String) :
    lookupNat (parseLines lines s ca).lines_deleted k =
      lookupNat s.lines_deleted k + specDeleted lines ca k := by
  induction lines generalizing s ca with
  | nil => simp [parseLines, specDeleted, statLinesBy]
  | cons line rest ih =>
    cases hline : pyStartsWith line (" ") with
    | false =>
      by_cases hne : pyStrip line = "" <;>
        simp [parseLines, hline, hne, ih, specDeleted, statLinesBy]
    | true =>
      by_cases hk : k = ca
      · subst hk
        rcases hins : findNumBefore line (" insertions") with _ | n <;>
          rcases hdel : findNumBefore line (" deletions") with _ | m <;>
          simp [parseLines, hline, hins, hdel, ih, specDeleted, statLinesBy,
            List.filter_cons, lookupNat_bump] <;> omega
      · have hk2 : ¬ ca = k := fun hc => hk hc.symm
        rcases hins : findNumBefore line (" insertions") with _ | n <;>
          rcases hdel : findNumBefore line (" deletions") with _ | m <;>
          simp [parseLines, hline, hins, hdel, ih, specDeleted, statLinesBy,
            List.filter_cons, lookupNat_bump, hk, hk2]

/-- Bumping never removes a key: once a key is present in `lines_added` it
stays present through the rest of the parse. -/
theorem parseLines_added_mono (lines : List String) (s : Summary) (ca : Option String)
    (k : Option String) (h : (lookupKey s.lines_added k).isSome) :
    (lookupKey (parseLines lines s ca).lines_added k).isSome := by
  induction lines generalizing s ca with
  | nil => simpa [parseLines] using h
  | cons line rest ih =>
    cases hline : pyStartsWith line (" ") with
    | false =>
      by_cases hne : pyStrip line = "" <;> simp [parseLines, hline, hne] <;> exact ih _ _ h
    | true =>
      rcases hins : findNumBefore line (" insertions") with _ | n <;>
        rcases hdel : findNumBefore line (" deletions") with _ | m <;>
        simp [parseLines, hline, hins, hdel] <;>
        first
        | exact ih _ _ h
        | exact ih _ _ (lookupKey_bump_isSome _ _ _ _ h)

/-- Same for `lines_deleted`. -/
theorem parseLines_deleted_mono (lines : List String) (s : Summary) (ca : Option String)
    (k : Option String) (h : (lookupKey s.lines_deleted k).isSome) :
    (lookupKey (parseLines lines s ca).lines_deleted k).isSome := by
  induction lines generalizing s ca with
  | nil => simpa [parseLines] using h
  | cons line rest ih =>
    cases hline : pyStartsWith line (" ") with
    | false =>
      by_cases hne : pyStrip line = "" <;> simp [parseLines, hline, hne] <;> exact ih _ _ h
    | true =>
      rcases hins : findNumBefore line (" insertions") with _ | n <;>
        rcases hdel : findNumBefore line (" deletions") with _ | m <;>
        simp [parseLines, hline, hins, hdel] <;>
        first
        | exact ih _ _ h
        | exact ih _ _ (lookupKey_bump_isSome _ _ _ _ h)

/-! ### Blame-loop invariants -/

/-- Every eligible file is blamed, in walk order, whatever the individual
blame outcomes are: an individual failure never stops the loop. -/
theorem blamePhase_trace (w : GitWorld) (files : List String) (acc : List (String × Nat)) :
    (blamePhase w files acc).2 =
      (files.filter (fun f => pyEndsWith f (".jl") || pyEndsWith f (".m"))).map GitCmd.blame := by
  induction files generalizing acc with
  | nil => simp [blamePhase]
  | cons f fs ih =>
    by_cases he : (pyEndsWith f (".jl") || pyEndsWith f (".m")) = true
    · rcases hb : w.blame f with _ | out <;>
        simp [blamePhase, he, hb, List.filter_cons, ih]
    · simp [blamePhase, he, List.filter_cons, ih]

/-- The tallied counts ignore exactly the files whose blame call failed:
dropping those files from the walk does not change the result. -/
theorem blamePhase_counts_skip (w : GitWorld) (files : List String)
    (acc : List (String × Nat)) :
    (blamePhase w files acc).1 =
      (blamePhase w (files.filter (fun f => (w.blame f).isSome)) acc).1 := by
  induction files generalizing acc with
  | nil => simp [blamePhase]
  | cons f fs ih =>
    by_cases he : (pyEndsWith f (".jl") || pyEndsWith f (".m")) = true <;>
      rcases hb : w.blame f with _ | out <;>
      simp [blamePhase, he, hb, List.filter_cons, ih]

/-! ### Checkout-phase facts -/

/-- Whenever the checkout phase runs, its first command is `git status`. -/
theorem checkoutPhase_head (w : GitWorld) (d : String) :
    ∃ tl, (checkoutPhase w d).2 = GitCmd.status :: tl := by
  rcases hst : w.statusResult with e | out
  · exact ⟨[], by simp [checkoutPhase, hst]⟩
  · by_cases hd : pyStrip out ≠ ""
    · exact ⟨[], by simp [checkoutPhase, hst, hd]⟩
    · rcases hrl : w.revListResult with e | rl
      · exact ⟨[.revList d], by simp [checkoutPhase, hst, hd, hrl]⟩
      · by_cases hh : pyStrip rl ≠ ""
        · exact ⟨[.revList d, .checkout (pyStrip rl)],
            by simp [checkoutPhase, hst, hd, hrl, hh]⟩
        · exact ⟨[.revList d], by simp [checkoutPhase, hst, hd, hrl, hh]⟩

/-! ### Alias-folding and color-mapping invariants -/

/-- What the folding loop writes: a non-alias user that occurs in the
iterated key list gets its total (which depends only on `md` and the user,
so later duplicates rewrite the same value); everyone else is untouched. -/
theorem foldStep_foldl_lookup (md : List (String × Nat)) (users : List String)
    (acc : List (String × Nat)) (u : String) :
    lookupKey (users.foldl (foldStep md) acc) u =
      if u ∈ users ∧ u ∉ alias_values then some (totOf md u) else lookupKey acc u := by
  induction users generalizing acc with
  | nil => simp
  | cons v vs ih =>
    rw [List.foldl_cons, ih]
    by_cases huA : u ∈ alias_values
    · have h1 : ¬ (u ∈ vs ∧ u ∉ alias_values) := fun hc => hc.2 huA
      have h2 : ¬ (u ∈ v :: vs ∧ u ∉ alias_values) := fun hc => hc.2 huA
      rw [if_neg h1, if_neg h2]
      unfold foldStep
      by_cases hv : v ∈ alias_values
      · rw [if_pos hv]
      · rw [if_neg hv, lookupKey_dictSet, if_neg (fun hc : u = v => hv (hc ▸ huA))]
    · by_cases huvs : u ∈ vs
      · have h1 : u ∈ vs ∧ u ∉ alias_values := ⟨huvs, huA⟩
        have h2 : u ∈ v :: vs ∧ u ∉ alias_values := ⟨List.mem_cons_of_mem v huvs, huA⟩
        rw [if_pos h1, if_pos h2]
      · have h1 : ¬ (u ∈ vs ∧ u ∉ alias_values) := fun hc => huvs hc.1
        rw [if_neg h1]
        by_cases huv : u = v
        · subst huv
          have h2 : u ∈ u :: vs ∧ u ∉ alias_values := ⟨List.mem_cons_self u vs, huA⟩
          rw [if_pos h2]
          unfold foldStep
          rw [if_neg huA, lookupKey_dictSet, if_pos rfl]
        · have h2 : ¬ (u ∈ v :: vs ∧ u ∉ alias_values) := by
            rintro ⟨hm, _⟩
            rcases List.mem_cons.mp hm with rfl | hm2
            · exact huv rfl
            · exact huvs hm2
          rw [if_neg h2]
          unfold foldStep
          by_cases hv : v ∈ alias_values
          · rw [if_pos hv]
          · rw [if_neg hv, lookupKey_dictSet, if_neg huv]

/-- `fold_aliases` assigns a key exactly the loop's total for it: present
non-alias input keys get `totOf`, alias names and absent names get
nothing. -/
theorem fold_aliases_lookup (md : List (String × Nat)) (u : String) :
    lookupKey (fold_aliases md) u =
      if u ∈ md.map Prod.fst ∧ u ∉ alias_values then some (totOf md u) else none := by
  unfold fold_aliases
  rw [foldStep_foldl_lookup]
  simp [lookupKey]

/-- The color mapping assigns each listed user the color computed from the
hash of the user's name alone, independent of the rest of the list. -/
theorem generate_unique_colors_lookup (md5int : String → Nat)
    (randTriple : Nat → Nat × Nat × Nat) (users : List String) (alpha : Rat) (u : String) :
    lookupKey (generate_unique_colors md5int randTriple users alpha) u =
      if u ∈ users then some (genColorOfSeed randTriple alpha (md5int u)) else none := by
  suffices h : ∀ acc, lookupKey (users.foldl (colorStep md5int randTriple alpha) acc) u =
      if u ∈ users then some (genColorOfSeed randTriple alpha (md5int u)) else lookupKey acc u by
    unfold generate_unique_colors
    rw [h []]
    simp [lookupKey]
  induction users with
  | nil => simp
  | cons v vs ih =>
    intro acc
    rw [List.foldl_cons, ih]
    by_cases hu : u ∈ vs
    · simp [hu, List.mem_cons]
    · unfold colorStep
      rw [lookupKey_dictSet]
      by_cases huv : u = v
      · subst huv
        simp [hu]
      · simp [hu, huv]

/-- The only error the checkout phase lets propagate is the dirty-tree
`RuntimeError`. -/
theorem checkoutPhase_some (w : GitWorld) (d : String) (e : RunError)
    (h : (checkoutPhase w d).1 = some e) : e = RunError.uncommittedChanges := by
  rcases hst : w.statusResult with e2 | out
  · simp [checkoutPhase, hst] at h
  · by_cases hd : pyStrip out ≠ ""
    · simp [checkoutPhase, hst, hd] at h
      exact h.symm
    · rcases hrl : w.revListResult with e2 | rl
      · simp [checkoutPhase, hst, hd, hrl] at h
      · by_cases hh : pyStrip rl ≠ "" <;> simp [checkoutPhase, hst, hd, hrl, hh] at h

/-- Shape of a run that needed a checkout: either the checkout phase
aborted it (the trace is the phase's trace and the result its error), or
the phase went through and the trace is the phase's trace, then the blame
commands, then the final `git checkout -`. -/
theorem run_trace_cases (w : GitWorld) (today d : String)
    (hy : yearOf d ≠ yearOf today) :
    (∃ e, (checkoutPhase w d).1 = some e ∧
      (get_code_lines_contributed w today (some d)).2 = (checkoutPhase w d).2 ∧
      (get_code_lines_contributed w today (some d)).1 = .error e) ∨
    ((checkoutPhase w d).1 = none ∧
      (get_code_lines_contributed w today (some d)).2 =
        (checkoutPhase w d).2 ++
          (blamePhase w (if dateBefore d ("2021-11-25") then w.filesMatlab
            else w.filesJulia) []).2 ++ [GitCmd.checkoutPrev]) := by
  rcases hph : (checkoutPhase w d).1 with _ | e
  · right
    refine ⟨rfl, ?_⟩
    cases hco : w.checkoutPrevOk <;> simp [get_code_lines_contributed, hy, hph, hco]
  · left
    exact ⟨e, rfl, by simp [get_code_lines_contributed, hy, hph],
      by simp [get_code_lines_contributed, hy, hph]⟩

/-- A run that needed no checkout issues exactly the blame commands of the
era's walk. -/
theorem run_trace_no_checkout (w : GitWorld) (today d : String)
    (hy : yearOf d = yearOf today) :
    (get_code_lines_contributed w today (some d)).2 = (eligFiles w d).map GitCmd.blame := by
  simp [get_code_lines_contributed, hy, eligFiles, blamePhase_trace]

/-! ### Concrete worlds used to instantiate the claim theorems -/

/-- A world with a clean tree, a resolvable revision, one MATLAB-era file
whose blame call fails, and a working final checkout. -/
def demoCleanWorld : GitWorld :=
  { statusResult := .ok ""
    revListResult := .ok "abc123\n"
    checkoutOk := true
    filesMatlab := ["model/core.m"]
    filesJulia := []
    blame := fun _ => none
    checkoutPrevOk := true }

/-- The same world with uncommitted changes in the tree. -/
def demoDirtyWorld : GitWorld :=
  { demoCleanWorld with statusResult := .ok " M file.py" }

/-- A two-author `git log --shortstat --pretty=format:%an` output. -/
def demoLog : List String :=
  ["Alice", " 2 files changed, 10 insertions(+), 3 deletions(-)",
   "Bob", " 1 file changed, 5 insertions(+), 1 deletions(-)",
   "Alice", " 1 file changed, 7 insertions(+)"]

/-! ### The claims -/

/-- Claim C1, as stated, is false: the folding loop only creates an entry
for a user that is itself a key of the input, so when only an alias of a
canonical author appears, the canonical author is assigned nothing (and the
alias's count is silently dropped).  Concretely, `"skoirala"` is the listed
alias of `"dr-ko"`, yet folding `{"skoirala": 5}` yields the empty mapping,
which does not assign `"dr-ko"` the claimed total `5`. -/
theorem c1_counterexample :
    lookupKey user_aliases "dr-ko" = some ["skoirala"] ∧
    fold_aliases [("skoirala", 5)] = [] ∧
    lookupKey (fold_aliases [("skoirala", 5)]) "dr-ko" = none := by
  decide

/-- Claim C1 (amended): for every raw count mapping and every canonical
author of the alias table that occurs as a key of the input, the folded
mapping assigns that author its own count plus the counts of its listed
aliases present in the input; and alias names never appear as keys of the
output. -/
theorem c1_fold_aliases (md : List (String × Nat)) (c : String) (als : List String)
    (hc : (c, als) ∈ user_aliases) (hmem : c ∈ md.map Prod.fst) :
    lookupKey (fold_aliases md) c =
      some ((lookupKey md c).getD 0 + (als.filterMap (fun a => lookupKey md a)).sum) ∧
    ∀ a ∈ alias_values, a ∉ (fold_aliases md).map Prod.fst := by
  constructor
  · have hlook : lookupKey user_aliases c = some als := by fin_cases hc <;> decide
    have hcA : c ∉ alias_values := by fin_cases hc <;> decide
    rw [fold_aliases_lookup, if_pos ⟨hmem, hcA⟩]
    unfold totOf
    rw [hlook]
  · intro a ha
    rw [← lookupKey_eq_none_iff, fold_aliases_lookup, if_neg]
    rintro ⟨_, hA⟩
    exact hA ha

theorem c1_witness :
    (("dr-ko", ["skoirala"]) ∈ user_aliases ∧
      "dr-ko" ∈ ([("dr-ko", 2), ("skoirala", 3), ("guest", 7)] :
        List (String × Nat)).map Prod.fst) ∧
    lookupKey (fold_aliases [("dr-ko", 2), ("skoirala", 3), ("guest", 7)]) "dr-ko" =
      some 5 ∧
    "skoirala" ∉ (fold_aliases [("dr-ko", 2), ("skoirala", 3), ("guest", 7)]).map Prod.fst := by
  have h := c1_fold_aliases [("dr-ko", 2), ("skoirala", 3), ("guest", 7)] "dr-ko"
    ["skoirala"] (by decide) (by decide)
  refine ⟨⟨by decide, by decide⟩, ?_, h.2 "skoirala" (by decide)⟩
  rw [h.1]
  decide

/-- Claim C2: when a historical date makes `check_out` true and `git status
--porcelain` reports changes (non-empty after stripping), the run stops
with the dirty-tree `RuntimeError` and the trace is the lone `git status`
call — no checkout (and no later command) is ever issued. -/
theorem c2_dirty_tree_aborts (w : GitWorld) (today d out : String)
    (hyear : yearOf d ≠ yearOf today) (hst : w.statusResult = .ok out)
    (hdirty : pyStrip out ≠ "") :
    (get_code_lines_contributed w today (some d)).1 =
      .error .uncommittedChanges ∧
    (get_code_lines_contributed w today (some d)).2 = [GitCmd.status] := by
  unfold get_code_lines_contributed checkoutPhase
  simp [hyear, hst, hdirty]

theorem c2_witness :
    yearOf "2020-05-05" ≠ yearOf "2026-10-12" ∧
    demoDirtyWorld.statusResult = .ok " M file.py" ∧
    pyStrip " M file.py" ≠ "" ∧
    (get_code_lines_contributed demoDirtyWorld "2026-10-12" (some "2020-05-05")).1 =
      .error .uncommittedChanges ∧
    (get_code_lines_contributed demoDirtyWorld "2026-10-12" (some "2020-05-05")).2 =
      [GitCmd.status] := by
  have h := c2_dirty_tree_aborts demoDirtyWorld "2026-10-12" "2020-05-05" " M file.py"
    (by decide) rfl (by decide)
  exact ⟨by decide, rfl, by decide, h.1, h.2⟩

/-- Claim C3, as stated, is false: the code compares only the year fields
(line 157), not the full dates.  With the current date `2026-10-12` and
`date_to_check = "2026-01-01"` — a different date in the same year — no
clean-tree check and no checkout happens: the run issues no git command at
all in a world with no walkable files. -/
theorem c3_counterexample :
    ("2026-01-01" : String) ≠ "2026-10-12" ∧
    (get_code_lines_contributed demoCleanWorld "2026-10-12" (some "2026-01-01")).2 = [] := by
  decide

/-- Claim C3 (amended): the checkout path — and with it the clean-tree
requirement, whose `git status` call is always its first command — is
triggered exactly when the year of `date_to_check` differs from the current
year; when the years agree the run issues only blame commands. -/
theorem c3_checkout_iff_year_differs (w : GitWorld) (today d : String) :
    (GitCmd.status ∈ (get_code_lines_contributed w today (some d)).2 ↔
      yearOf d ≠ yearOf today) ∧
    (yearOf d = yearOf today →
      (get_code_lines_contributed w today (some d)).2 = (eligFiles w d).map GitCmd.blame) := by
  by_cases hy : yearOf d = yearOf today
  · have htr := run_trace_no_checkout w today d hy
    refine ⟨⟨fun hmem => ?_, fun hne => absurd hy hne⟩, fun _ => htr⟩
    rw [htr] at hmem
    rcases List.mem_map.mp hmem with ⟨f, _, hfe⟩
    exact GitCmd.noConfusion hfe
  · obtain ⟨tl, htl⟩ := checkoutPhase_head w d
    have hmem : GitCmd.status ∈ (get_code_lines_contributed w today (some d)).2 := by
      rcases run_trace_cases w today d hy with ⟨e, _, htr, _⟩ | ⟨_, htr⟩
      · rw [htr, htl]
        exact List.mem_cons_self _ _
      · rw [htr, htl]
        exact List.mem_append_left _ (List.mem_append_left _ (List.mem_cons_self _ _))
    exact ⟨⟨fun _ => hy, fun _ => hmem⟩, fun hc => absurd hc hy⟩

theorem c3_witness :
    ((GitCmd.status ∈
        (get_code_lines_contributed demoCleanWorld "2026-10-12" (some "2026-03-01")).2 ↔
      yearOf "2026-03-01" ≠ yearOf "2026-10-12") ∧
    (get_code_lines_contributed demoCleanWorld "2026-10-12" (some "2026-03-01")).2 =
      (eligFiles demoCleanWorld "2026-03-01").map GitCmd.blame) := by
  have h := c3_checkout_iff_year_differs demoCleanWorld "2026-10-12" "2026-03-01"
  exact ⟨h.1, h.2 (by decide)⟩

/-- Claim C4: whenever the run needed a checkout (the years differ) and did
not stop at the dirty-tree error, its very last command is the restoring
`git checkout -` — whatever the outcomes of the individual blame calls
were, and even when the final restore itself exits non-zero (the command is
still issued; its failure then aborts the run loudly). -/
theorem c4_restores_tree (w : GitWorld) (today d : String)
    (hy : yearOf d ≠ yearOf today)
    (hnd : (get_code_lines_contributed w today (some d)).1 ≠
      .error .uncommittedChanges) :
    ((get_code_lines_contributed w today (some d)).2).getLast? =
      some GitCmd.checkoutPrev := by
  rcases run_trace_cases w today d hy with ⟨e, hph, htr, hres⟩ | ⟨_, htr⟩
  · have he := checkoutPhase_some w d e hph
    subst he
    exact absurd hres hnd
  · rw [htr, List.getLast?_concat]

theorem c4_witness :
    yearOf "2020-05-05" ≠ yearOf "2026-10-12" ∧
    (get_code_lines_contributed demoCleanWorld "2026-10-12" (some "2020-05-05")).1 ≠
      .error .uncommittedChanges ∧
    ((get_code_lines_contributed demoCleanWorld "2026-10-12" (some "2020-05-05")).2).getLast? =
      some GitCmd.checkoutPrev ∧
    (get_code_lines_contributed demoCleanWorld "2026-10-12" (some "2020-05-05")).2 =
      [GitCmd.status, GitCmd.revList "2020-05-05", GitCmd.checkout "abc123",
        GitCmd.blame "model/core.m", GitCmd.checkoutPrev] := by
  refine ⟨by decide, by decide, ?_, by decide⟩
  exact c4_restores_tree demoCleanWorld "2026-10-12" "2020-05-05" (by decide) (by decide)

/-- Claim C5: the parser's per-author totals are exactly the declarative
sums over the line-oriented output — the commit count of a (non-empty)
author name is the number of unindented lines carrying it, and the
insertion/deletion totals under any key are the sums of the numbers
extracted from the indented statistics lines attributed to that key by the
most recent preceding author line. -/
theorem c5_parser_totals (lines : List String) (a : String) (ha : a ≠ "")
    (k : Option String) :
    lookupNat (parseLog lines).git_commits a = specCommits lines a ∧
    lookupNat (parseLog lines).lines_added k = specAdded lines none k ∧
    lookupNat (parseLog lines).lines_deleted k = specDeleted lines none k := by
  refine ⟨?_, ?_, ?_⟩
  · simpa [parseLog, lookupNat, lookupKey] using
      parseLines_commits lines ⟨[], [], []⟩ none a ha
  · simpa [parseLog, lookupNat, lookupKey] using
      parseLines_added lines ⟨[], [], []⟩ none k
  · simpa [parseLog, lookupNat, lookupKey] using
      parseLines_deleted lines ⟨[], [], []⟩ none k

theorem c5_witness :
    ("Alice" : String) ≠ "" ∧
    lookupNat (parseLog demoLog).git_commits "Alice" = specCommits demoLog "Alice" ∧
    lookupNat (parseLog demoLog).lines_added (some "Alice") =
      specAdded demoLog none (some "Alice") ∧
    lookupNat (parseLog demoLog).git_commits "Alice" = 2 ∧
    lookupNat (parseLog demoLog).git_commits "Bob" = 1 ∧
    lookupNat (parseLog demoLog).lines_added (some "Alice") = 17 ∧
    lookupNat (parseLog demoLog).lines_added (some "Bob") = 5 ∧
    lookupNat (parseLog demoLog).lines_deleted (some "Alice") = 3 ∧
    lookupNat (parseLog demoLog).lines_deleted (some "Bob") = 1 := by
  have h := c5_parser_totals demoLog "Alice" (by decide) (some "Alice")
  exact ⟨by decide, h.1, h.2.1, by decide, by decide, by decide, by decide,
    by decide, by decide⟩

/-- Claim C6: the presented author list is sorted strictly (the input keys
are distinct, being keys of a dictionary), and any permutation of the input
insertion order sorts to the identical list. -/
theorem c6_sorted_users (l1 l2 : List String) (hnd : l1.Nodup) (hperm : l1.Perm l2) :
    (sorted_users l1).Sorted pyStrLt ∧ sorted_users l1 = sorted_users l2 := by
  constructor
  · have hs : (sorted_users l1).Sorted pyStrLe := List.sorted_insertionSort pyStrLe l1
    have hnd2 : (sorted_users l1).Nodup :=
      (List.perm_insertionSort pyStrLe l1).nodup_iff.mpr hnd
    exact (hs.and hnd2).imp
      (fun hab => lt_of_le_of_ne hab.1 (fun hc => hab.2 (codePoints_inj hc)))
  · exact List.eq_of_perm_of_sorted
      (((List.perm_insertionSort pyStrLe l1).trans hperm).trans
        (List.perm_insertionSort pyStrLe l2).symm)
      (List.sorted_insertionSort pyStrLe l1)
      (List.sorted_insertionSort pyStrLe l2)

theorem c6_witness :
    (["b", "a", "c"] : List String).Nodup ∧
    (["b", "a", "c"] : List String).Perm ["c", "b", "a"] ∧
    (sorted_users ["b", "a", "c"]).Sorted pyStrLt ∧
    sorted_users ["b", "a", "c"] = sorted_users ["c", "b", "a"] ∧
    sorted_users ["b", "a", "c"] = ["a", "b", "c"] := by
  have h := c6_sorted_users ["b", "a", "c"] ["c", "b", "a"] (by decide) (by decide)
  exact ⟨by decide, by decide, h.1, h.2, by decide⟩

/-- Claim C7, as stated, is false: line 343 gives an author that is not
among the run's commit authors the fixed color `"#cccccc"` instead of the
generated one, so the chart color is not a function of the name alone — the
same author gets different colors in two runs whose commit-author sets
differ.  The two chart colors below differ for every hash and every PRNG
model (a generated color is an RGBA tuple, the fallback a string), so an
arbitrary concrete instantiation of the two external functions exhibits
it. -/
theorem c7_counterexample :
    chartColor (fun _ => 0) (fun _ => (0, 0, 0)) ["Alice"] (9 / 10) "Alice" ≠
      chartColor (fun _ => 0) (fun _ => (0, 0, 0)) [] (9 / 10) "Alice" := by
  decide

/-- Claim C7 (amended): the generated color of an author is a deterministic
function of the hash of the author's name alone — independent of the rest
of the user list, hence equal across metrics within a run and across any
two runs in whose commit-author lists the name appears; an author missing
from a run's commit authors gets the fixed gray instead. -/
theorem c7_color_deterministic (md5int : String → Nat)
    (randTriple : Nat → Nat × Nat × Nat) (alpha : Rat) (users1 users2 : List String)
    (u : String) (h1 : u ∈ users1) (h2 : u ∈ users2) :
    lookupKey (generate_unique_colors md5int randTriple users1 alpha) u =
      some (genColorOfSeed randTriple alpha (md5int u)) ∧
    chartColor md5int randTriple users1 alpha u =
      chartColor md5int randTriple users2 alpha u := by
  constructor
  · rw [generate_unique_colors_lookup, if_pos h1]
  · unfold chartColor
    rw [generate_unique_colors_lookup, generate_unique_colors_lookup,
      if_pos h1, if_pos h2]

theorem c7_witness :
    ("Alice" : String) ∈ ["Alice", "Bob"] ∧
    ("Alice" : String) ∈ ["Carol", "Alice"] ∧
    lookupKey (generate_unique_colors (fun _ => 7) (fun s => (s, 2 * s, 3 * s))
        ["Alice", "Bob"] (9 / 10)) "Alice" =
      some (genColorOfSeed (fun s => (s, 2 * s, 3 * s)) (9 / 10) 7) ∧
    chartColor (fun _ => 7) (fun s => (s, 2 * s, 3 * s)) ["Alice", "Bob"] (9 / 10) "Alice" =
      chartColor (fun _ => 7) (fun s => (s, 2 * s, 3 * s)) ["Carol", "Alice"] (9 / 10)
        "Alice" := by
  have h := c7_color_deterministic (fun _ => 7) (fun s => (s, 2 * s, 3 * s)) (9 / 10)
    ["Alice", "Bob"] ["Carol", "Alice"] "Alice" (by decide) (by decide)
  exact ⟨by decide, by decide, h.1, h.2⟩

/-- Claim C8: a non-zero exit of the `git log` call makes
`get_git_user_commit_summary` raise immediately — the result is the
`Exception` and the trace shows no command after the log call. -/
theorem c8_log_nonzero_aborts (log_result : ProcResult) (w : GitWorld)
    (today end_date : String) (h : log_result.returncode ≠ 0) :
    (get_git_user_commit_summary log_result w today end_date).1 = .error .logError ∧
    (get_git_user_commit_summary log_result w today end_date).2 = [GitCmd.log] := by
  unfold get_git_user_commit_summary
  simp [h]

theorem c8_witness :
    ((⟨1, ""⟩ : ProcResult).returncode ≠ 0) ∧
    (get_git_user_commit_summary ⟨1, ""⟩ demoCleanWorld "2026-10-12" "2020-12-31").1 =
      .error .logError ∧
    (get_git_user_commit_summary ⟨1, ""⟩ demoCleanWorld "2026-10-12" "2020-12-31").2 =
      [GitCmd.log] := by
  have h := c8_log_nonzero_aborts ⟨1, ""⟩ demoCleanWorld "2026-10-12" "2020-12-31"
    (by decide)
  exact ⟨by decide, h.1, h.2⟩

/-- Claim C9: an individual blame failure is skipped without stopping the
loop — the trace always lists a blame command for every eligible file of
the walk, in order, and the tallied counts are those of the files whose
blame call succeeded (failing files contribute nothing). -/
theorem c9_blame_failure_skipped (w : GitWorld) (files : List String)
    (acc : List (String × Nat)) :
    (blamePhase w files acc).2 =
      (files.filter (fun f => pyEndsWith f (".jl") || pyEndsWith f (".m"))).map
        GitCmd.blame ∧
    (blamePhase w files acc).1 =
      (blamePhase w (files.filter (fun f => (w.blame f).isSome)) acc).1 :=
  ⟨blamePhase_trace w files acc, blamePhase_counts_skip w files acc⟩

/-- Claim C10: when the log output opens with an indented statistics line,
the parser does not reject it — it books the extracted numbers under the
key `None` (`current_author` is still `None`), so `lines_added` /
`lines_deleted` carry a `none` entry holding all statistics attributed
before the first author line. -/
theorem c10_none_key (l0 : String) (rest : List String)
    (h0 : pyStartsWith l0 (" ") = true) :
    ((findNumBefore l0 (" insertions")).isSome →
      lookupKey (parseLog (l0 :: rest)).lines_added none =
        some (specAdded (l0 :: rest) none none)) ∧
    ((findNumBefore l0 (" deletions")).isSome →
      lookupKey (parseLog (l0 :: rest)).lines_deleted none =
        some (specDeleted (l0 :: rest) none none)) := by
  constructor
  · intro hins
    rcases Option.isSome_iff_exists.mp hins with ⟨n, hn⟩
    have hsome : (lookupKey (parseLog (l0 :: rest)).lines_added none).isSome := by
      unfold parseLog parseLines
      rcases hdel : findNumBefore l0 (" deletions") with _ | m <;>
        simp [h0, hn, hdel] <;>
        exact parseLines_added_mono _ _ _ _ (lookupKey_bump_isSome_self _ _ _)
    rcases Option.isSome_iff_exists.mp hsome with ⟨v, hv⟩
    have htot : lookupNat (parseLog (l0 :: rest)).lines_added none =
        specAdded (l0 :: rest) none none := by
      simpa [parseLog, lookupNat, lookupKey] using
        parseLines_added (l0 :: rest) ⟨[], [], []⟩ none none
    rw [hv]
    rw [lookupNat, hv] at htot
    exact congrArg some htot
  · intro hdel
    rcases Option.isSome_iff_exists.mp hdel with ⟨m, hm⟩
    have hsome : (lookupKey (parseLog (l0 :: rest)).lines_deleted none).isSome := by
      unfold parseLog parseLines
      rcases hins : findNumBefore l0 (" insertions") with _ | n <;>
        simp [h0, hm, hins] <;>
        exact parseLines_deleted_mono _ _ _ _ (lookupKey_bump_isSome_self _ _ _)
    rcases Option.isSome_iff_exists.mp hsome with ⟨v, hv⟩
    have htot : lookupNat (parseLog (l0 :: rest)).lines_deleted none =
        specDeleted (l0 :: rest) none none := by
      simpa [parseLog, lookupNat, lookupKey] using
        parseLines_deleted (l0 :: rest) ⟨[], [], []⟩ none none
    rw [hv]
    rw [lookupNat, hv] at htot
    exact congrArg some htot

theorem c10_witness :
    pyStartsWith (" 2 files changed, 4 insertions(+), 1 deletions(-)") (" ") = true ∧
    lookupKey (parseLog
        [" 2 files changed, 4 insertions(+), 1 deletions(-)", "Bob",
         " 1 file changed, 9 insertions(+)"]).lines_added none = some 4 ∧
    lookupKey (parseLog
        [" 2 files changed, 4 insertions(+), 1 deletions(-)", "Bob",
         " 1 file changed, 9 insertions(+)"]).lines_deleted none = some 1 := by
  have h := c10_none_key (" 2 files changed, 4 insertions(+), 1 deletions(-)")
    ["Bob", " 1 file changed, 9 insertions(+)"] (by decide)
  refine ⟨by decide, ?_, ?_⟩
  · rw [h.1 (by decide)]
    decide
  · rw [h.2 (by decide)]
    decide

end GitStats
